import Mathlib

/-!
Verification of the decoration engine of the rich-text example
(`src/examples/rich-text/index.js`): the function `decorateNode`
(lines 906-958) that maps a Prism token stream onto highlight ranges
anchored to (segment, offset) pairs, and its helper `getContent`
(lines 207-215).

Texts are modelled as lists of characters; JavaScript number
arithmetic on offsets is modelled with `Int` (offsets computed by the
source can go out of range, and JavaScript subtraction can in
principle go negative, so `Nat` truncation would be unfaithful).
-/

/-- A leaf text segment of a code block (Slate text node): a `key`
identifying the node and its text content.  Keys are opaque in the
source (they are only copied into ranges, never inspected); we use
`Nat` keys so that claims about segment order can be stated. -/
structure Text where
  key : Nat
  text : List Char
  deriving DecidableEq, Repr

/-- A mark placed on a decoration, `\x7b type: token.type \x7d` in the
source. -/
structure Mark where
  type : String
  deriving DecidableEq, Repr

/-- A decoration range as built by `decorateNode` (lines 943-950):
anchor key/offset, focus key/offset and the list of marks.  Offsets
are `Int` because the source computes them with JavaScript number
arithmetic and nothing clamps them. -/
structure Range where
  anchorKey : Nat
  anchorOffset : Int
  focusKey : Nat
  focusOffset : Int
  marks : List Mark
  deriving DecidableEq, Repr

/-- A Prism token: either a plain string, or a structured token with a
`type` tag whose `content` is a string or a nested list of tokens. -/
inductive Token where
  | str : List Char → Token
  | nodeStr : String → List Char → Token
  | nodeList : String → List Token → Token

/-- `typeof token == 'string'` test used at line 942 of the source. -/
def Token.isString : Token → Bool
  | .str _ => true
  | .nodeStr _ _ => false
  | .nodeList _ _ => false

/-- The `type` tag of a structured token (`token.type` at line 948);
a plain string token has no tag and is given `""` (the source never
reads `type` of a plain string). -/
def Token.typeTag : Token → String
  | .str _ => ""
  | .nodeStr ty _ => ty
  | .nodeList ty _ => ty

mutual

/-- `getContent` (source lines 207-215): the flattened textual content
of a token; a plain string is its own content, a string `content`
field is used directly, and nested token lists are flattened
recursively and joined with no separator. -/
def getContent : Token → List Char
  | .str s => s
  | .nodeStr _ c => c
  | .nodeList _ ts => getContentList ts

/-- `token.content.map(getContent).join('')` from line 213 of the
source. -/
def getContentList : List Token → List Char
  | [] => []
  | t :: ts => getContent t ++ getContentList ts

end

/-- `content.split('\n').length - 1` (line 926): the number of newline
characters embedded in a token's content. -/
def countNL (s : List Char) : Nat :=
  s.countP (fun c => c == '\n')

/-- Result of the boundary-crossing `while` loop of `decorateNode`
(lines 935-940): the remaining segment list, the segment holding the
end of the token, and the end offset. -/
structure CrossResult where
  texts : List Text
  endText : Text
  endOffset : Int
  deriving DecidableEq, Repr

/-- The `while (available < remaining && texts.length > 0)` loop of
`decorateNode` (lines 935-940), translated verbatim: each iteration
shifts the next segment into `endText`, reassigns
`remaining = length - available` (note: against the *previous*
`available` only, exactly as the source does), reloads `available`
from the new segment, and sets `endOffset = remaining`. -/
def crossLoop (len : Int) : List Text → Text → Int → Int → Int → CrossResult
  | [], e, _, _, o => ⟨[], e, o⟩
  | t :: rest, e, available, remaining, o =>
    if available < remaining then
      crossLoop len rest t (t.text.length : Int) (len - available) (len - available)
    else ⟨t :: rest, e, o⟩

/-- The mutable state carried across iterations of the
`for (const token of tokens)` loop of `decorateNode`: the not yet
reached segments, the current end cursor (`endText`, `endOffset`), the
running global position `start`, and the decorations emitted so far.
(`startText`/`startOffset` are reassigned from the end cursor at the
top of every iteration, lines 922-923, so they are loop-local.) -/
structure LoopState where
  texts : List Text
  endText : Text
  endOffset : Int
  start : Int
  decorations : List Range
  deriving Repr

/-- One iteration of the token loop of `decorateNode`
(lines 921-954): compute the token's flattened content, subtract the
embedded newlines from its length, run the boundary-crossing loop, and
if the token is structured push a range from the start cursor to the
new end cursor carrying the token's `type` as its single mark. -/
def tokenStep (st : LoopState) (token : Token) : LoopState :=
  let startText := st.endText
  let startOffset := st.endOffset
  let content := getContent token
  let newlines := countNL content
  let length : Int := (content.length : Int) - (newlines : Int)
  let endPos := st.start + length
  let available : Int := (startText.text.length : Int) - startOffset
  let res := crossLoop length st.texts startText available length (startOffset + length)
  { texts := res.texts
    endText := res.endText
    endOffset := res.endOffset
    start := endPos
    decorations :=
      if token.isString then st.decorations
      else st.decorations ++
        [{ anchorKey := startText.key
           anchorOffset := startOffset
           focusKey := res.endText.key
           focusOffset := res.endOffset
           marks := [{ type := token.typeTag }] }] }

/-- The token-to-range mapping core of `decorateNode`
(lines 914-957): `t0` is the segment obtained by `texts.shift()` at
line 915 (the spec guarantees at least one segment), `rest` the
remaining segments, and `tokens` the token stream; the cursor starts
at offset 0 of `t0` and the decorations array starts empty. -/
def decorateCore (t0 : Text) (rest : List Text) (tokens : List Token) : List Range :=
  (tokens.foldl tokenStep
    { texts := rest, endText := t0, endOffset := 0, start := 0, decorations := [] }).decorations

/-- `texts.map(t => t.text).join('\n')` (line 911): the newline-joined
concatenation of the segment texts that is handed to the tokenizer. -/
def joinedText (ts : List Text) : List Char :=
  List.intercalate ['\n'] (ts.map Text.text)

/-- The counted length of a token (line 927): the character length of
its flattened content minus the embedded newline characters, which are
structural separators and do not count toward in-segment offsets. -/
def countedLen (tok : Token) : Nat :=
  (getContent tok).length - countNL (getContent tok)

/-- Modelled from the spec: the cursor-advancing step of the
decoration mapper as prescribed by spec section 4.1 step 2c, which is
not itself a function of the repository (the repository's loop at
lines 935-940 is the object under test).  While the characters
remaining in the current segment are insufficient for the un-placed
length `need`, consume the rest of the segment, advance to the next
segment with offset reset to 0, and continue with the *remainder*
(`need` reduced by what the previous segment supplied).  When the
segments run out (input contract violation, spec section 4.1 step 3)
the behaviour is undefined; this model then leaves the overshooting
offset in place. -/
def specAdvance : List Text → Text → Nat → Nat → List Text × Text × Nat
  | texts, cur, off, need =>
    if need ≤ cur.text.length - off then (texts, cur, off + need)
    else
      match texts with
      | [] => (texts, cur, off + need)
      | t :: rest => specAdvance rest t 0 (need - (cur.text.length - off))

/-- Modelled from the spec: the decoration mapper of spec section 4.1,
one range per structured token from the cursor position before the
token to the cursor position after it, plain string tokens advancing
the cursor without emitting. -/
def specMapper : List Text → Text → Nat → List Token → List Range
  | _, _, _, [] => []
  | texts, cur, off, tok :: toks =>
    let L := countedLen tok
    let res := specAdvance texts cur off L
    (if tok.isString then []
     else [{ anchorKey := cur.key
             anchorOffset := (off : Int)
             focusKey := res.2.1.key
             focusOffset := (res.2.2 : Int)
             marks := [{ type := tok.typeTag }] }]) ++
    specMapper res.1 res.2.1 res.2.2 toks

/-- Checks, along the correct cursor walk, that every token's counted
content fits within the cursor's current segment together with at most
the immediately following one — i.e. that the boundary-crossing loop
of `decorateNode` never has to shift more than one segment for a
single token, and that the segments never run out. -/
def fitsTwoAux : Text → Nat → List Text → List Nat → Bool
  | _, _, _, [] => true
  | cur, off, texts, L :: Ls =>
    if L ≤ cur.text.length - off then fitsTwoAux cur (off + L) texts Ls
    else
      match texts with
      | [] => false
      | t :: rest =>
        decide (L - (cur.text.length - off) ≤ t.text.length) &&
          fitsTwoAux t (L - (cur.text.length - off)) rest Ls

/-- `fitsTwoAux` from the initial cursor position of `decorateCore`. -/
def fitsTwo (t0 : Text) (rest : List Text) (tokens : List Token) : Bool :=
  fitsTwoAux t0 0 rest (tokens.map countedLen)

/-- Lexicographic order on cursor positions (segment key, offset):
strictly earlier segment, or same segment and offset at most. -/
def posLE (a b : Nat × Int) : Prop :=
  a.1 < b.1 ∨ (a.1 = b.1 ∧ a.2 ≤ b.2)

/-- Strict lexicographic order on cursor positions. -/
def posLT (a b : Nat × Int) : Prop :=
  a.1 < b.1 ∨ (a.1 = b.1 ∧ a.2 < b.2)

instance (a b : Nat × Int) : Decidable (posLE a b) := by
  unfold posLE; exact inferInstance

instance (a b : Nat × Int) : Decidable (posLT a b) := by
  unfold posLT; exact inferInstance

/-- The in-segment character positions covered by a range: the
(key, offset) pairs of actual segment characters lying at or after the
anchor and strictly before the focus, in segment order.  Newline
separators between segments are not characters of any segment, so they
are never covered. -/
def covered (segs : List Text) (r : Range) : List (Nat × Nat) :=
  segs.flatMap fun t =>
    ((List.range t.text.length).filter fun j =>
        decide (posLE (r.anchorKey, r.anchorOffset) (t.key, Int.ofNat j)) &&
        decide (posLT (t.key, Int.ofNat j) (r.focusKey, r.focusOffset))).map
      fun j => (t.key, j)

/-- Fuel-bounded version of the boundary-crossing `while` loop
(lines 935-940): `none` means the fuel ran out before the loop
condition became false.  Used to state that the loop always terminates
within as many iterations as there are remaining segments, because
every iteration shifts one segment. -/
def crossLoopFuel (len : Int) : Nat → List Text → Text → Int → Int → Int → Option CrossResult
  | _, [], e, _, _, o => some ⟨[], e, o⟩
  | fuel, t :: rest, e, available, remaining, o =>
    if available < remaining then
      match fuel with
      | 0 => none
      | f + 1 => crossLoopFuel len f rest t (t.text.length : Int) (len - available) (len - available)
    else some ⟨t :: rest, e, o⟩

/-- A code block node as consumed by `decorateNode` (lines 907-910):
its `type`, its `data.get('language')`, and its ordered text segments
(at least one, per spec section 4.1; the head is the segment obtained
by `texts.shift()` at line 915). -/
structure Node where
  type : String
  language : String
  firstText : Text
  restTexts : List Text

/-- Modelled from the spec: the external tokenizer `Prism.tokenize`
(spec section 6) is not part of this repository.  Its behaviour on a
registered grammar is abstracted by the parameter `tokenizeDefined`;
on a missing grammar (`none`, the value of `Prism.languages[language]`
for an unregistered language) the prismjs implementation dereferences
`grammar.rest` before any other work and therefore raises a TypeError,
modelled as `Except.error`. -/
def Prism_tokenize {G : Type} (tokenizeDefined : List Char → G → List Token)
    (s : List Char) : Option G → Except String (List Token)
  | none => .error "TypeError: cannot read rest of undefined"
  | some g => .ok (tokenizeDefined s g)

/-- `decorateNode` (lines 906-958) including its entry checks: `none`
for a non-code node (the early `return` at line 907), otherwise the
grammar is looked up, the joined text is tokenized (raising when the
language has no registered grammar, see `Prism_tokenize`) and the core
mapping is run. -/
def decorateNodeM {G : Type} (languages : String → Option G)
    (tokenizeDefined : List Char → G → List Token) (node : Node) :
    Except String (Option (List Range)) :=
  if node.type ≠ "code" then .ok none
  else
    match Prism_tokenize tokenizeDefined (joinedText (node.firstText :: node.restTexts))
        (languages node.language) with
    | .error e => .error e
    | .ok tokens => .ok (some (decorateCore node.firstText node.restTexts tokens))

/-- A range runs forward: its focus position is lexicographically at
or after its anchor position. -/
def rangeForward (r : Range) : Prop :=
  posLE (r.anchorKey, r.anchorOffset) (r.focusKey, r.focusOffset)

/-- Anchor order on ranges: the second range starts at a
lexicographically greater-or-equal (segment key, offset) position. -/
def anchorLE (a b : Range) : Prop :=
  posLE (a.anchorKey, a.anchorOffset) (b.anchorKey, b.anchorOffset)

/-- The keys of the not yet reached segments lie strictly beyond the
current end segment's key and are strictly increasing. -/
def ordState (e : Text) (ts : List Text) : Prop :=
  List.Chain' (· < ·) (e.key :: ts.map Text.key)

instance (r : Range) : Decidable (rangeForward r) := by
  unfold rangeForward; exact inferInstance

instance : DecidableRel anchorLE := by
  intro a b; unfold anchorLE; exact inferInstance

/-- C1: for two segments `"ab"`, `"cd"` and the token stream
`["a", (tag, "b\nc")]`, `decorateNode` emits exactly one range,
anchored at segment 0 offset 1 and focused at segment 1 offset 1: the
joining newline inside the token's content does not count toward the
token's length. -/
theorem cross_segment_split_range :
    decorateCore ⟨0, "ab".toList⟩ [⟨1, "cd".toList⟩]
      [.str "a".toList, .nodeStr "tag" "b\nc".toList] =
    [{ anchorKey := 0, anchorOffset := 1, focusKey := 1, focusOffset := 1,
       marks := [{ type := "tag" }] }] := by decide

/-- C6 counterexample: on the single segment `"let x = 1;"` with token
stream `[(keyword, "let"), " x = ", (number, "1"), ";"]` the claimed
output (number range spanning offsets 9 to 10) is not what the code
emits: `"1"` sits at offset 8 of the segment, so the number range
spans offsets 8 to 9. -/
theorem single_segment_example_cex :
    decorateCore ⟨0, "let x = 1;".toList⟩ []
      [.nodeStr "keyword" "let".toList, .str " x = ".toList,
       .nodeStr "number" "1".toList, .str ";".toList] ≠
    [{ anchorKey := 0, anchorOffset := 0, focusKey := 0, focusOffset := 3,
       marks := [{ type := "keyword" }] },
     { anchorKey := 0, anchorOffset := 9, focusKey := 0, focusOffset := 10,
       marks := [{ type := "number" }] }] := by decide

/-- C6 amended: on the single segment `"let x = 1;"` with token stream
`[(keyword, "let"), " x = ", (number, "1"), ";"]` the code emits
exactly two ranges, a keyword range spanning offsets 0 to 3 and a
number range spanning offsets 8 to 9 (not 9 to 10 as the spec's
example miscomputes: `"1"` is the ninth character, offset 8). -/
theorem single_segment_example_ranges :
    decorateCore ⟨0, "let x = 1;".toList⟩ []
      [.nodeStr "keyword" "let".toList, .str " x = ".toList,
       .nodeStr "number" "1".toList, .str ";".toList] =
    [{ anchorKey := 0, anchorOffset := 0, focusKey := 0, focusOffset := 3,
       marks := [{ type := "keyword" }] },
     { anchorKey := 0, anchorOffset := 8, focusKey := 0, focusOffset := 9,
       marks := [{ type := "number" }] }] := by decide

/-- C5: when the token stream's counted content length (3, for content
`"abc"`) exceeds the total remaining segment text (2, one segment
`"ab"`), `decorateNode` does not raise any error: it silently returns
a malformed range whose focus offset 3 exceeds the focus segment's
length 2.  The boundary loop merely stops when `texts` is exhausted
(line 935 requires `texts.length > 0`) and no length check exists
anywhere in the function. -/
theorem length_overflow_silent_range :
    decorateCore ⟨0, "ab".toList⟩ [] [.nodeStr "t" "abc".toList] =
    [{ anchorKey := 0, anchorOffset := 0, focusKey := 0, focusOffset := 3,
       marks := [{ type := "t" }] }] := by decide

/-- C4: calling `decorateNode` on a code node whose declared language
has no registered grammar does not return an empty range sequence: the
grammar lookup at line 912 yields `undefined` and `Prism.tokenize`
(line 913) raises a TypeError on it, so the call fails.  Here the
registry holds the three languages offered by the example's selector
and the node declares language `"python"`. -/
theorem unknown_language_raises :
    decorateNodeM
      (fun l => if l = "css" ∨ l = "js" ∨ l = "html" then some () else none)
      (fun s _ => [Token.str s])
      { type := "code", language := "python", firstText := ⟨0, "x".toList⟩, restTexts := [] } =
    Except.error "TypeError: cannot read rest of undefined" := by rfl

/-- C2 counterexample: for three segments `"ab"`, `"c"`, `"defgh"` and
the matching token stream `[(t, "ab\nc\nde"), "fgh"]` (flattened
content equals the newline-joined segment texts), the structured token
spans all of segments 0 and 1 and the first two characters of segment
2, but the emitted range focuses at offset 4 of segment 2 instead of
offset 2: the boundary loop recomputes the remainder from the last
shifted segment only, so the range's covered character positions
(7 of them) are not the token's span (5 positions). -/
theorem round_trip_coverage_cex :
    getContentList [.nodeStr "t" "ab\nc\nde".toList, .str "fgh".toList] =
      joinedText [⟨0, "ab".toList⟩, ⟨1, "c".toList⟩, ⟨2, "defgh".toList⟩] ∧
    decorateCore ⟨0, "ab".toList⟩ [⟨1, "c".toList⟩, ⟨2, "defgh".toList⟩]
        [.nodeStr "t" "ab\nc\nde".toList, .str "fgh".toList] ≠
      specMapper [⟨1, "c".toList⟩, ⟨2, "defgh".toList⟩] ⟨0, "ab".toList⟩ 0
        [.nodeStr "t" "ab\nc\nde".toList, .str "fgh".toList] ∧
    (decorateCore ⟨0, "ab".toList⟩ [⟨1, "c".toList⟩, ⟨2, "defgh".toList⟩]
        [.nodeStr "t" "ab\nc\nde".toList, .str "fgh".toList]).flatMap
      (covered [⟨0, "ab".toList⟩, ⟨1, "c".toList⟩, ⟨2, "defgh".toList⟩]) ≠
    (specMapper [⟨1, "c".toList⟩, ⟨2, "defgh".toList⟩] ⟨0, "ab".toList⟩ 0
        [.nodeStr "t" "ab\nc\nde".toList, .str "fgh".toList]).flatMap
      (covered [⟨0, "ab".toList⟩, ⟨1, "c".toList⟩, ⟨2, "defgh".toList⟩]) := by
  refine ⟨by decide, by decide, by decide⟩

/-- C3 counterexample: for three segments `"a"`, `"b"`, `"cc"` and the
matching single-token stream `[(t, "a\nb\ncc")]` (a structured token
spanning three adjacent segments), the emitted range's focus offset is
3, exceeding the focus segment's text length 2: the offsets-in-bounds
invariant fails exactly in the three-or-more-segment case the claim
singles out. -/
theorem offset_bounds_cex :
    getContentList [.nodeStr "t" "a\nb\ncc".toList] =
      joinedText [⟨0, "a".toList⟩, ⟨1, "b".toList⟩, ⟨2, "cc".toList⟩] ∧
    ¬ (∀ r ∈ decorateCore ⟨0, "a".toList⟩ [⟨1, "b".toList⟩, ⟨2, "cc".toList⟩]
          [.nodeStr "t" "a\nb\ncc".toList],
        ∃ tf ∈ [(⟨0, "a".toList⟩ : Text), ⟨1, "b".toList⟩, ⟨2, "cc".toList⟩],
          r.focusKey = tf.key ∧ 0 ≤ r.focusOffset ∧
          r.focusOffset ≤ (tf.text.length : Int)) := by
  refine ⟨by decide, by decide⟩

/-- The embedded newline count never exceeds the content length, so a
token's counted length is non-negative. -/
lemma countNL_le (s : List Char) : countNL s ≤ s.length :=
  List.countP_le_length _

/-- The `Int` length computed at lines 926-927 equals the `Nat`
counted length of the token. -/
lemma lenI_eq (tok : Token) :
    ((getContent tok).length : Int) - (countNL (getContent tok) : Int) =
      (countedLen tok : Int) := by
  have h := countNL_le (getContent tok)
  unfold countedLen
  omega

/-- When the loop condition is false on entry the boundary loop
returns its inputs unchanged. -/
lemma crossLoop_no_iter (len : Int) (texts : List Text) (e : Text) (a r o : Int)
    (h : ¬ a < r) : crossLoop len texts e a r o = ⟨texts, e, o⟩ := by
  cases texts <;> simp [crossLoop, h]

/-- Characterization of one token-loop iteration when the token's
counted length fits in the current segment: the cursor stays in the
segment and advances by the counted length. -/
lemma tokenStep_fits_one (texts : List Text) (cur : Text) (eo start : Int)
    (dec : List Range) (tok : Token)
    (h : ¬ (cur.text.length : Int) - eo < (countedLen tok : Int)) :
    tokenStep ⟨texts, cur, eo, start, dec⟩ tok =
      { texts := texts, endText := cur,
        endOffset := eo + (countedLen tok : Int),
        start := start + (countedLen tok : Int),
        decorations :=
          if tok.isString then dec
          else dec ++
            [{ anchorKey := cur.key, anchorOffset := eo,
               focusKey := cur.key,
               focusOffset := eo + (countedLen tok : Int),
               marks := [{ type := tok.typeTag }] }] } := by
  simp only [tokenStep]
  rw [lenI_eq, crossLoop_no_iter _ _ _ _ _ _ h]

/-- Characterization of one token-loop iteration when the token's
counted length overflows the current segment but fits in the next one:
the boundary loop runs exactly once, the cursor moves to the next
segment, and the end offset is the overflow into it. -/
lemma tokenStep_fits_two (t : Text) (rest : List Text) (cur : Text) (eo start : Int)
    (dec : List Range) (tok : Token)
    (h1 : (cur.text.length : Int) - eo < (countedLen tok : Int))
    (h2 : ¬ (t.text.length : Int) <
        (countedLen tok : Int) - ((cur.text.length : Int) - eo)) :
    tokenStep ⟨t :: rest, cur, eo, start, dec⟩ tok =
      { texts := rest, endText := t,
        endOffset := (countedLen tok : Int) - ((cur.text.length : Int) - eo),
        start := start + (countedLen tok : Int),
        decorations :=
          if tok.isString then dec
          else dec ++
            [{ anchorKey := cur.key, anchorOffset := eo,
               focusKey := t.key,
               focusOffset := (countedLen tok : Int) -
                 ((cur.text.length : Int) - eo),
               marks := [{ type := tok.typeTag }] }] } := by
  simp only [tokenStep]
  rw [lenI_eq]
  rw [show crossLoop (countedLen tok : Int) (t :: rest) cur
        ((cur.text.length : Int) - eo) (countedLen tok : Int)
        (eo + (countedLen tok : Int)) =
      crossLoop (countedLen tok : Int) rest t (t.text.length : Int)
        ((countedLen tok : Int) - ((cur.text.length : Int) - eo))
        ((countedLen tok : Int) - ((cur.text.length : Int) - eo))
    from by simp [crossLoop, h1]]
  rw [crossLoop_no_iter _ _ _ _ _ _ h2]

/-- `specAdvance` when the needed length fits in the current
segment. -/
lemma specAdvance_one (texts : List Text) (cur : Text) (off need : Nat)
    (h : need ≤ cur.text.length - off) :
    specAdvance texts cur off need = (texts, cur, off + need) := by
  unfold specAdvance
  rw [if_pos h]

/-- `specAdvance` when the needed length overflows the current segment
but fits in the next one. -/
lemma specAdvance_two (t : Text) (rest : List Text) (cur : Text) (off need : Nat)
    (h1 : ¬ need ≤ cur.text.length - off)
    (h2 : need - (cur.text.length - off) ≤ t.text.length) :
    specAdvance (t :: rest) cur off need =
      (rest, t, need - (cur.text.length - off)) := by
  unfold specAdvance
  rw [if_neg h1]
  unfold specAdvance
  rw [if_pos (by omega : need - (cur.text.length - off) ≤ t.text.length - 0)]
  simp

/-- The core loop of `decorateNode` refines the spec's mapper: when
every token's counted content fits within the cursor's current segment
together with at most the immediately following one (checked by
`fitsTwoAux`), the decorations produced by the source's loop are
exactly the ranges of the spec mapper. -/
lemma core_refines_aux (toks : List Token) :
    ∀ (texts : List Text) (cur : Text) (off : Nat) (start : Int) (dec : List Range),
      off ≤ cur.text.length →
      fitsTwoAux cur off texts (toks.map countedLen) = true →
      (toks.foldl tokenStep
          { texts := texts, endText := cur, endOffset := (off : Int),
            start := start, decorations := dec }).decorations =
        dec ++ specMapper texts cur off toks := by
  induction toks with
  | nil =>
    intro texts cur off start dec _ _
    simp [specMapper]
  | cons tok toks ih =>
    intro texts cur off start dec hle hfits
    rw [List.foldl_cons]
    by_cases h1 : countedLen tok ≤ cur.text.length - off
    · have hfits' : fitsTwoAux cur (off + countedLen tok) texts (toks.map countedLen) = true := by
        simpa [fitsTwoAux, h1] using hfits
      rw [tokenStep_fits_one texts cur (off : Int) start dec tok (by omega)]
      rw [show (off : Int) + (countedLen tok : Int) = ((off + countedLen tok : Nat) : Int) from by
        push_cast; ring]
      by_cases hs : tok.isString
      · rw [if_pos hs]
        have hIH := ih texts cur (off + countedLen tok) (start + (countedLen tok : Int))
          dec (by omega) hfits'
        rw [hIH]
        simp [specMapper, specAdvance_one texts cur off (countedLen tok) h1, hs]
      · rw [if_neg hs]
        have hIH := ih texts cur (off + countedLen tok) (start + (countedLen tok : Int))
          (dec ++
            [{ anchorKey := cur.key, anchorOffset := (off : Int),
               focusKey := cur.key,
               focusOffset := ((off + countedLen tok : Nat) : Int),
               marks := [{ type := tok.typeTag }] }])
          (by omega) hfits'
        rw [hIH]
        simp [specMapper, specAdvance_one texts cur off (countedLen tok) h1, hs,
          List.append_assoc]
    · cases texts with
      | nil => simp [fitsTwoAux, h1] at hfits
      | cons t rest =>
        have h2 : countedLen tok - (cur.text.length - off) ≤ t.text.length ∧
            fitsTwoAux t (countedLen tok - (cur.text.length - off)) rest
              (toks.map countedLen) = true := by
          simpa [fitsTwoAux, h1] using hfits
        rw [tokenStep_fits_two t rest cur (off : Int) start dec tok (by omega)
          (by have := h2.1; omega)]
        rw [show (countedLen tok : Int) - ((cur.text.length : Int) - (off : Int)) =
            ((countedLen tok - (cur.text.length - off) : Nat) : Int) from by omega]
        by_cases hs : tok.isString
        · rw [if_pos hs]
          have hIH := ih rest t (countedLen tok - (cur.text.length - off))
            (start + (countedLen tok : Int)) dec h2.1 h2.2
          rw [hIH]
          simp [specMapper, specAdvance_two t rest cur off (countedLen tok) h1 h2.1, hs]
        · rw [if_neg hs]
          have hIH := ih rest t (countedLen tok - (cur.text.length - off))
            (start + (countedLen tok : Int))
            (dec ++
              [{ anchorKey := cur.key, anchorOffset := (off : Int),
                 focusKey := t.key,
                 focusOffset := ((countedLen tok - (cur.text.length - off) : Nat) : Int),
                 marks := [{ type := tok.typeTag }] }])
            h2.1 h2.2
          rw [hIH]
          simp [specMapper, specAdvance_two t rest cur off (countedLen tok) h1 h2.1, hs,
            List.append_assoc]

/-- C2 amended: for every segment list and matching token stream in
which, additionally, every token's counted content fits within the
cursor's current segment plus at most the immediately following one
(so the boundary-crossing loop never shifts twice for one token,
checked by `fitsTwo`), the ranges emitted by `decorateNode` are
exactly those of the spec's correct mapper — one per structured token,
spanning precisely the token's characters — and hence their covered
character spans coincide with the structured tokens' spans, with no
overlaps and no gaps beyond the skipped plain tokens.  Without the
`fitsTwo` restriction the property fails (see the counterexample): a
token spanning three or more segments gets a wrong focus offset. -/
theorem round_trip_coverage_two_segment_crossings
    (t0 : Text) (rest : List Text) (tokens : List Token)
    (_hmatch : getContentList tokens = joinedText (t0 :: rest))
    (hfits : fitsTwo t0 rest tokens = true) :
    decorateCore t0 rest tokens = specMapper rest t0 0 tokens ∧
    (decorateCore t0 rest tokens).flatMap (covered (t0 :: rest)) =
      (specMapper rest t0 0 tokens).flatMap (covered (t0 :: rest)) := by
  have h := core_refines_aux tokens rest t0 0 0 [] (Nat.zero_le _) hfits
  have h' : decorateCore t0 rest tokens = specMapper rest t0 0 tokens := by
    simpa [decorateCore] using h
  exact ⟨h', by rw [h']⟩

/-- C2 witness: on two segments `"ab"`, `"cd"` with the matching
stream `["a", (tag, "b\nc"), "d"]` both hypotheses hold and the
equality with the spec mapper follows. -/
theorem round_trip_coverage_two_segment_crossings_witness :
    getContentList [.str "a".toList, .nodeStr "tag" "b\nc".toList, .str "d".toList] =
      joinedText [⟨0, "ab".toList⟩, ⟨1, "cd".toList⟩] ∧
    fitsTwo ⟨0, "ab".toList⟩ [⟨1, "cd".toList⟩]
      [.str "a".toList, .nodeStr "tag" "b\nc".toList, .str "d".toList] = true ∧
    decorateCore ⟨0, "ab".toList⟩ [⟨1, "cd".toList⟩]
        [.str "a".toList, .nodeStr "tag" "b\nc".toList, .str "d".toList] =
      specMapper [⟨1, "cd".toList⟩] ⟨0, "ab".toList⟩ 0
        [.str "a".toList, .nodeStr "tag" "b\nc".toList, .str "d".toList] :=
  ⟨by decide, by decide,
    (round_trip_coverage_two_segment_crossings ⟨0, "ab".toList⟩ [⟨1, "cd".toList⟩]
      [.str "a".toList, .nodeStr "tag" "b\nc".toList, .str "d".toList]
      (by decide) (by decide)).1⟩

/-- Every range emitted by the spec mapper has its anchor and focus on
actual segments (the current one or a later one) with offsets inside
the segment's bounds, provided every token fits within two adjacent
segments. -/
lemma specMapper_bounds (toks : List Token) :
    ∀ (texts : List Text) (cur : Text) (off : Nat),
      off ≤ cur.text.length →
      fitsTwoAux cur off texts (toks.map countedLen) = true →
      ∀ r ∈ specMapper texts cur off toks,
        (∃ ta ∈ cur :: texts, r.anchorKey = ta.key ∧ 0 ≤ r.anchorOffset ∧
          r.anchorOffset ≤ (ta.text.length : Int)) ∧
        (∃ tf ∈ cur :: texts, r.focusKey = tf.key ∧ 0 ≤ r.focusOffset ∧
          r.focusOffset ≤ (tf.text.length : Int)) := by
  induction toks with
  | nil =>
    intro texts cur off _ _ r hr
    simp [specMapper] at hr
  | cons tok toks ih =>
    intro texts cur off hle hfits r hr
    by_cases h1 : countedLen tok ≤ cur.text.length - off
    · have hfits' : fitsTwoAux cur (off + countedLen tok) texts (toks.map countedLen) = true := by
        simpa [fitsTwoAux, h1] using hfits
      rw [specMapper, specAdvance_one texts cur off (countedLen tok) h1] at hr
      simp only [List.mem_append] at hr
      rcases hr with hr | hr
      · by_cases hs : tok.isString
        · simp [hs] at hr
        · simp only [hs, Bool.false_eq_true, if_false, List.mem_singleton] at hr
          subst hr
          refine ⟨⟨cur, List.mem_cons_self cur texts, rfl, by positivity, by
            simp; omega⟩,
            ⟨cur, List.mem_cons_self cur texts, rfl, by positivity, by
            simp; omega⟩⟩
      · exact ih texts cur (off + countedLen tok) (by omega) hfits' r hr
    · cases texts with
      | nil => simp [fitsTwoAux, h1] at hfits
      | cons t rest =>
        have h2 : countedLen tok - (cur.text.length - off) ≤ t.text.length ∧
            fitsTwoAux t (countedLen tok - (cur.text.length - off)) rest
              (toks.map countedLen) = true := by
          simpa [fitsTwoAux, h1] using hfits
        rw [specMapper, specAdvance_two t rest cur off (countedLen tok) h1 h2.1] at hr
        simp only [List.mem_append] at hr
        rcases hr with hr | hr
        · by_cases hs : tok.isString
          · simp [hs] at hr
          · simp only [hs, Bool.false_eq_true, if_false, List.mem_singleton] at hr
            subst hr
            refine ⟨⟨cur, List.mem_cons_self cur (t :: rest), rfl, by positivity, by
              simp; omega⟩,
              ⟨t, List.mem_cons_of_mem cur (List.mem_cons_self t rest), rfl,
                by positivity, by simp; omega⟩⟩
        · have hmem := ih rest t (countedLen tok - (cur.text.length - off)) h2.1 h2.2 r hr
          obtain ⟨⟨ta, hta, ha⟩, ⟨tf, htf, hf⟩⟩ := hmem
          exact ⟨⟨ta, List.mem_cons_of_mem cur hta, ha⟩,
            ⟨tf, List.mem_cons_of_mem cur htf, hf⟩⟩

/-- C3 amended: for every segment list and matching token stream in
which, additionally, every token's counted content fits within the
cursor's current segment plus at most the immediately following one
(`fitsTwo`), every range emitted by `decorateNode` has its anchor and
focus on actual segments with offsets within the segment's text
bounds; covered characters are in-segment positions only, so newline
separators are never covered.  Contrary to the claim's final clause,
the invariant does *not* survive a structured token spanning three or
more adjacent segments (see the counterexample), which is why the
`fitsTwo` restriction is required. -/
theorem offset_bounds_two_segment_crossings
    (t0 : Text) (rest : List Text) (tokens : List Token)
    (_hmatch : getContentList tokens = joinedText (t0 :: rest))
    (hfits : fitsTwo t0 rest tokens = true) :
    ∀ r ∈ decorateCore t0 rest tokens,
      (∃ ta ∈ t0 :: rest, r.anchorKey = ta.key ∧ 0 ≤ r.anchorOffset ∧
        r.anchorOffset ≤ (ta.text.length : Int)) ∧
      (∃ tf ∈ t0 :: rest, r.focusKey = tf.key ∧ 0 ≤ r.focusOffset ∧
        r.focusOffset ≤ (tf.text.length : Int)) := by
  have h : decorateCore t0 rest tokens = specMapper rest t0 0 tokens := by
    simpa [decorateCore] using
      core_refines_aux tokens rest t0 0 0 [] (Nat.zero_le _) hfits
  rw [h]
  exact specMapper_bounds tokens rest t0 0 (Nat.zero_le _) hfits

/-- C3 witness: on two segments `"ab"`, `"cd"` with the matching
stream `[(tag, "ab\ncd")]` both hypotheses hold and every emitted
range is in bounds. -/
theorem offset_bounds_two_segment_crossings_witness :
    getContentList [.nodeStr "tag" "ab\ncd".toList] =
      joinedText [⟨0, "ab".toList⟩, ⟨1, "cd".toList⟩] ∧
    fitsTwo ⟨0, "ab".toList⟩ [⟨1, "cd".toList⟩] [.nodeStr "tag" "ab\ncd".toList] = true ∧
    ∀ r ∈ decorateCore ⟨0, "ab".toList⟩ [⟨1, "cd".toList⟩] [.nodeStr "tag" "ab\ncd".toList],
      (∃ ta ∈ [(⟨0, "ab".toList⟩ : Text), ⟨1, "cd".toList⟩], r.anchorKey = ta.key ∧
        0 ≤ r.anchorOffset ∧ r.anchorOffset ≤ (ta.text.length : Int)) ∧
      (∃ tf ∈ [(⟨0, "ab".toList⟩ : Text), ⟨1, "cd".toList⟩], r.focusKey = tf.key ∧
        0 ≤ r.focusOffset ∧ r.focusOffset ≤ (tf.text.length : Int)) :=
  ⟨by decide, by decide,
    offset_bounds_two_segment_crossings ⟨0, "ab".toList⟩ [⟨1, "cd".toList⟩]
      [.nodeStr "tag" "ab\ncd".toList] (by decide) (by decide)⟩

/-- Flattening a token list is the concatenation of the flattened
members in order, with no separator. -/
lemma getContentList_eq_join (ts : List Token) :
    getContentList ts = (ts.map getContent).flatten := by
  induction ts with
  | nil => rfl
  | cons t ts ih => simp [getContentList, ih]

/-- C8: `getContent` returns the token's flattened textual content —
the token itself for a plain string, the `content` field when it is a
string, and otherwise the in-order concatenation of the flattened
contents of the nested children with no separator, at any nesting
depth; consequently the token loop treats a structured token with
nested content exactly like a flat token carrying the concatenation,
producing a single range spanning it. -/
theorem getContent_flattening :
    (∀ s : List Char, getContent (.str s) = s) ∧
    (∀ (ty : String) (c : List Char), getContent (.nodeStr ty c) = c) ∧
    (∀ (ty : String) (ts : List Token),
      getContent (.nodeList ty ts) = (ts.map getContent).flatten) ∧
    (∀ (st : LoopState) (ty : String) (ts : List Token),
      tokenStep st (.nodeList ty ts) =
        tokenStep st (.nodeStr ty ((ts.map getContent).flatten))) := by
  refine ⟨fun s => rfl, fun ty c => rfl, fun ty ts => getContentList_eq_join ts, ?_⟩
  intro st ty ts
  have h : getContent (Token.nodeList ty ts) =
      getContent (Token.nodeStr ty ((ts.map getContent).flatten)) := by
    simp [getContent, getContentList_eq_join]
  simp only [tokenStep, h, Token.isString, Token.typeTag]

/-- One token-loop iteration appends the mark list `[type tag]` for a
structured token and nothing for a plain string token. -/
lemma tokenStep_marks (st : LoopState) (tok : Token) :
    (tokenStep st tok).decorations.map Range.marks =
      st.decorations.map Range.marks ++
        (if tok.isString then [] else [[{ type := tok.typeTag }]]) := by
  by_cases hs : tok.isString <;> simp [tokenStep, hs]

/-- Running the token loop appends, in token order, one mark list per
structured token. -/
lemma foldl_marks (toks : List Token) :
    ∀ st : LoopState,
      ((toks.foldl tokenStep st).decorations).map Range.marks =
        st.decorations.map Range.marks ++
          (toks.filter (fun t => !t.isString)).map (fun t => [{ type := t.typeTag }]) := by
  induction toks with
  | nil => intro st; simp
  | cons tok toks ih =>
    intro st
    rw [List.foldl_cons, ih (tokenStep st tok), tokenStep_marks]
    by_cases hs : tok.isString <;> simp [hs, List.filter_cons, List.append_assoc]

/-- C7: for every segment list and token stream, `decorateNode` emits
exactly one range per structured token and none for plain string
tokens, in token order, and each emitted range's mark list is exactly
the singleton of the token's type tag: the emitted mark lists equal,
position by position, those of the structured-token subsequence. -/
theorem one_range_per_structured_token (t0 : Text) (rest : List Text) (tokens : List Token) :
    (decorateCore t0 rest tokens).map Range.marks =
      (tokens.filter (fun t => !t.isString)).map (fun t => [{ type := t.typeTag }]) := by
  simp [decorateCore, foldl_marks]

/-- C9: the segment-advancing loop of `decorateNode` always makes
progress and never loops forever: it terminates within as many
iterations as there are remaining segments (each iteration consumes
one segment), for every segment list — including lists containing
zero-length segments; and such an empty segment is simply consumed in
one iteration, contributing zero characters of `available` text, with
the advancing cursor skipping over it. -/
theorem cross_loop_terminates :
    (∀ (len : Int) (texts : List Text) (e : Text) (a r o : Int),
        crossLoopFuel len texts.length texts e a r o =
          some (crossLoop len texts e a r o)) ∧
    (∀ (len : Int) (k : Nat) (rest : List Text) (e : Text) (a r o : Int), a < r →
        crossLoop len (⟨k, []⟩ :: rest) e a r o =
          crossLoop len rest ⟨k, []⟩ 0 (len - a) (len - a)) := by
  constructor
  · intro len texts
    induction texts with
    | nil => intro e a r o; rfl
    | cons t rest ih =>
      intro e a r o
      by_cases h : a < r
      · simp only [List.length_cons, crossLoopFuel, crossLoop, if_pos h]
        exact ih t (t.text.length : Int) (len - a) (len - a)
      · simp only [List.length_cons, crossLoopFuel, crossLoop, if_neg h]
  · intro len k rest e a r o h
    simp [crossLoop, h]

/-- C9 witness: the fuel bound and the empty-segment step at concrete
inputs. -/
theorem cross_loop_terminates_witness :
    crossLoopFuel 2 ([⟨1, "cd".toList⟩] : List Text).length [⟨1, "cd".toList⟩]
        ⟨0, "ab".toList⟩ 1 2 3 =
      some (crossLoop 2 [⟨1, "cd".toList⟩] ⟨0, "ab".toList⟩ 1 2 3) ∧
    crossLoop 5 [⟨7, []⟩] ⟨6, "ab".toList⟩ 1 5 5 =
      crossLoop 5 [] ⟨7, []⟩ 0 (5 - 1) (5 - 1) :=
  ⟨cross_loop_terminates.1 2 [⟨1, "cd".toList⟩] ⟨0, "ab".toList⟩ 1 2 3,
   cross_loop_terminates.2 5 7 [] ⟨6, "ab".toList⟩ 1 5 5 (by decide)⟩

/-- Transitivity of the lexicographic cursor order. -/
lemma posLE_trans {a b c : Nat × Int} (h1 : posLE a b) (h2 : posLE b c) : posLE a c := by
  rcases h1 with h1 | ⟨h1, h1'⟩ <;> rcases h2 with h2 | ⟨h2, h2'⟩ <;>
    first
      | exact Or.inl (by omega)
      | exact Or.inr ⟨by omega, by omega⟩

/-- An element of `getLast?` is an element of the list. -/
lemma mem_of_getLast? {α : Type} {l : List α} {x : α} (h : x ∈ l.getLast?) : x ∈ l := by
  obtain ⟨hne, rfl⟩ := List.mem_getLast?_eq_getLast h
  exact List.getLast_mem hne

/-- The boundary-crossing loop preserves key-sortedness of the cursor
state, and either returns its input unchanged or strictly advances the
end segment's key. -/
lemma crossLoop_cursor (len : Int) :
    ∀ (texts : List Text) (e : Text) (a r o : Int),
      ordState e texts →
      ordState (crossLoop len texts e a r o).endText (crossLoop len texts e a r o).texts ∧
      (crossLoop len texts e a r o = ⟨texts, e, o⟩ ∨
        e.key < (crossLoop len texts e a r o).endText.key) := by
  intro texts
  induction texts with
  | nil => intro e a r o hord; exact ⟨hord, Or.inl rfl⟩
  | cons t rest ih =>
    intro e a r o hord
    have hlt : e.key < t.key := (List.chain'_cons.mp (by simpa [ordState] using hord)).1
    have hord' : ordState t rest := by
      simpa [ordState] using (List.chain'_cons.mp (by simpa [ordState] using hord)).2
    by_cases h : a < r
    · have hstep : crossLoop len (t :: rest) e a r o =
          crossLoop len rest t (t.text.length : Int) (len - a) (len - a) := by
        simp [crossLoop, h]
      rw [hstep]
      obtain ⟨hres, hcase⟩ := ih t (t.text.length : Int) (len - a) (len - a) hord'
      refine ⟨hres, Or.inr ?_⟩
      rcases hcase with heq | hgt
      · rw [heq]; exact hlt
      · omega
    · have hstep : crossLoop len (t :: rest) e a r o = ⟨t :: rest, e, o⟩ := by
        simp [crossLoop, h]
      rw [hstep]
      exact ⟨hord, Or.inl rfl⟩

/-- One token-loop iteration preserves key-sortedness, moves the end
cursor lexicographically forward, and appends either nothing (plain
token) or exactly one range running from the previous cursor to the
new cursor (structured token). -/
lemma tokenStep_cursor (st : LoopState) (tok : Token)
    (hord : ordState st.endText st.texts) :
    ordState (tokenStep st tok).endText (tokenStep st tok).texts ∧
    posLE (st.endText.key, st.endOffset)
      ((tokenStep st tok).endText.key, (tokenStep st tok).endOffset) ∧
    ((tokenStep st tok).decorations = st.decorations ∨
      (tokenStep st tok).decorations = st.decorations ++
        [{ anchorKey := st.endText.key, anchorOffset := st.endOffset,
           focusKey := (tokenStep st tok).endText.key,
           focusOffset := (tokenStep st tok).endOffset,
           marks := [{ type := tok.typeTag }] }]) := by
  have hL : 0 ≤ ((getContent tok).length : Int) - (countNL (getContent tok) : Int) := by
    have := countNL_le (getContent tok)
    omega
  obtain ⟨hres, hcase⟩ := crossLoop_cursor
    (((getContent tok).length : Int) - (countNL (getContent tok) : Int))
    st.texts st.endText
    ((st.endText.text.length : Int) - st.endOffset)
    (((getContent tok).length : Int) - (countNL (getContent tok) : Int))
    (st.endOffset + (((getContent tok).length : Int) - (countNL (getContent tok) : Int)))
    hord
  refine ⟨by simpa [tokenStep] using hres, ?_, ?_⟩
  · rcases hcase with heq | hgt
    · simp only [tokenStep, heq]
      exact Or.inr ⟨rfl, by omega⟩
    · simp only [tokenStep]
      exact Or.inl hgt
  · by_cases hs : tok.isString
    · exact Or.inl (by simp [tokenStep, hs])
    · exact Or.inr (by simp [tokenStep, hs])

/-- Running the token loop from a key-sorted state keeps every emitted
range running forward and the anchors of the emitted ranges
lexicographically non-decreasing. -/
lemma foldl_forward (toks : List Token) :
    ∀ st : LoopState,
      ordState st.endText st.texts →
      (∀ r ∈ st.decorations, rangeForward r) →
      List.Chain' anchorLE st.decorations →
      (∀ r ∈ st.decorations,
        posLE (r.anchorKey, r.anchorOffset) (st.endText.key, st.endOffset)) →
      (∀ r ∈ (toks.foldl tokenStep st).decorations, rangeForward r) ∧
      List.Chain' anchorLE (toks.foldl tokenStep st).decorations := by
  induction toks with
  | nil => intro st _ h2 h3 _; exact ⟨h2, h3⟩
  | cons tok toks ih =>
    intro st h1 h2 h3 h4
    obtain ⟨h1', hpos, hdec⟩ := tokenStep_cursor st tok h1
    rw [List.foldl_cons]
    apply ih (tokenStep st tok) h1'
    · rcases hdec with hd | hd
      · rw [hd]; exact h2
      · rw [hd]
        intro r hr
        rcases List.mem_append.mp hr with h | h
        · exact h2 r h
        · rw [List.mem_singleton.mp h]
          simpa [rangeForward] using hpos
    · rcases hdec with hd | hd
      · rw [hd]; exact h3
      · rw [hd]
        refine List.Chain'.append h3 (List.chain'_singleton _) ?_
        intro x hx y hy
        rw [List.head?_cons, Option.mem_some_iff] at hy
        subst hy
        have hxm : x ∈ st.decorations := mem_of_getLast? hx
        simpa [anchorLE] using h4 x hxm
    · intro r hr
      rcases hdec with hd | hd
      · rw [hd] at hr
        exact posLE_trans (h4 r hr) hpos
      · rw [hd] at hr
        rcases List.mem_append.mp hr with h | h
        · exact posLE_trans (h4 r h) hpos
        · rw [List.mem_singleton.mp h]
          simpa using hpos

/-- C10: whenever the segment keys are strictly increasing along the
segment list (so key order coincides with segment list order), every
range emitted by `decorateNode` has its focus at or after its anchor —
a strictly later segment, or the same segment with a focus offset at
least the anchor offset — and successive emitted ranges start at
lexicographically non-decreasing (segment, offset) positions, because
the cursor only ever advances forward through the segment list. -/
theorem ranges_forward_monotone (t0 : Text) (rest : List Text) (tokens : List Token)
    (hkeys : List.Chain' (· < ·) ((t0 :: rest).map Text.key)) :
    (∀ r ∈ decorateCore t0 rest tokens, rangeForward r) ∧
    List.Chain' anchorLE (decorateCore t0 rest tokens) := by
  have h := foldl_forward tokens
    { texts := rest, endText := t0, endOffset := 0, start := 0, decorations := [] }
    (by simpa [ordState] using hkeys) (by simp) (by simp) (by simp)
  simpa [decorateCore] using h

/-- C10 witness: concrete sorted segments with a cross-segment token
stream. -/
theorem ranges_forward_monotone_witness :
    List.Chain' (· < ·) (([⟨3, "xy".toList⟩, ⟨5, "z".toList⟩] : List Text).map Text.key) ∧
    ((∀ r ∈ decorateCore ⟨3, "xy".toList⟩ [⟨5, "z".toList⟩]
        [.str "x".toList, .nodeStr "kw" "y\nz".toList], rangeForward r) ∧
      List.Chain' anchorLE (decorateCore ⟨3, "xy".toList⟩ [⟨5, "z".toList⟩]
        [.str "x".toList, .nodeStr "kw" "y\nz".toList])) :=
  ⟨by norm_num [List.chain'_cons],
    ranges_forward_monotone ⟨3, "xy".toList⟩ [⟨5, "z".toList⟩]
      [.str "x".toList, .nodeStr "kw" "y\nz".toList] (by norm_num [List.chain'_cons])⟩
